import Mathlib

/-!
Verification of the West Auction data-migration pipeline.

Shallow embedding of the core routines of the repository:

* `scripts/fetch-by-week.js` — the windowed traverser (`generateWeeklyRanges`),
  the source-URL to destination-key mapping (`getS3KeyFromUrl`), and the
  bounded-concurrency transfer engine (`uploadImageToS3`, `processImage`,
  `processImagesWithConcurrency`, `migrate`).
* the API client (`APIClient.rateLimit`, `APIClient.makeRequest`).
* the lot-image collector (`ImageCollector.fetchImagesForLot`,
  `ImageCollector.processLot`).

Dates are modelled as natural numbers (days); machine I/O (HTTP, S3, the
filesystem) is modelled by explicit outcome oracles supplied per attempt, so
every definition is an executable function of its inputs.
-/

/-! ## Windowed traverser: `generateWeeklyRanges` (scripts/fetch-by-week.js lines 30-54)

The source loops `while (current <= endDate)`, pushing
`{start: current, end: min(current + 7, endDate)}` and advancing
`current += 7`.  The chunk width is the hard-coded 7 days; we embed it as the
parameter `chunk` and recover the source function at `chunk = 7`.  The field
`stop` stands for the source field `end` (a Lean keyword). -/

structure DateRange where
  start : Nat
  stop : Nat
deriving DecidableEq, Repr

def generateRanges (chunk s e : Nat) : List DateRange :=
  if h : 0 < chunk ∧ s ≤ e then
    ⟨s, min (s + chunk) e⟩ :: generateRanges chunk (s + chunk) e
  else
    []
termination_by e + 1 - s
decreasing_by omega

/-- Source instance: weekly ranges use the hard-coded 7-day chunk. -/
def generateWeeklyRanges (s e : Nat) : List DateRange :=
  generateRanges 7 s e

/-- Membership of a day in one of the generated half-open windows. -/
def coveredBy (l : List DateRange) (x : Nat) : Prop :=
  ∃ r ∈ l, r.start ≤ x ∧ x < r.stop

theorem generateRanges_eq_pos (chunk s e : Nat) (hc : 0 < chunk) (hse : s ≤ e) :
    generateRanges chunk s e =
      ⟨s, min (s + chunk) e⟩ :: generateRanges chunk (s + chunk) e := by
  rw [generateRanges]
  simp [hc, hse]

theorem generateRanges_eq_neg (chunk s e : Nat) (hse : ¬ s ≤ e) :
    generateRanges chunk s e = [] := by
  rw [generateRanges]
  simp [hse]

theorem generateRanges_start_le {chunk s e : Nat} :
    ∀ r ∈ generateRanges chunk s e, s ≤ r.start := by
  by_cases hc : 0 < chunk
  · by_cases hse : s ≤ e
    · rw [generateRanges_eq_pos chunk s e hc hse]
      intro r hr
      rcases List.mem_cons.mp hr with h | h
      · subst h; exact Nat.le_refl s
      · have := generateRanges_start_le r h
        omega
    · rw [generateRanges_eq_neg chunk s e hse]; intro r hr; cases hr
  · rw [generateRanges]
    intro r hr
    simp [hc] at hr
termination_by e + 1 - s
decreasing_by omega

theorem coveredBy_generateRanges (chunk e : Nat) (hc : 0 < chunk) (s : Nat) (hse : s ≤ e)
    (x : Nat) : coveredBy (generateRanges chunk s e) x ↔ s ≤ x ∧ x < e := by
  rw [generateRanges_eq_pos chunk s e hc hse]
  by_cases hstep : s + chunk ≤ e
  · have hrec := coveredBy_generateRanges chunk e hc (s + chunk) hstep x
    constructor
    · rintro ⟨r, hr, hx⟩
      rcases List.mem_cons.mp hr with h | h
      · subst h; simp at hx; omega
      · have := hrec.mp ⟨r, h, hx⟩; omega
    · intro hx
      by_cases hfirst : x < s + chunk
      · exact ⟨⟨s, min (s + chunk) e⟩, List.mem_cons_self _ _, by simp; omega⟩
      · rcases hrec.mpr (by omega) with ⟨r, hr, hxr⟩
        exact ⟨r, List.mem_cons_of_mem _ hr, hxr⟩
  · have hempty : generateRanges chunk (s + chunk) e = [] :=
      generateRanges_eq_neg chunk (s + chunk) e hstep
    rw [hempty]
    constructor
    · rintro ⟨r, hr, hx⟩
      rcases List.mem_cons.mp hr with h | h
      · subst h; simp at hx; omega
      · cases h
    · intro hx
      exact ⟨⟨s, min (s + chunk) e⟩, List.mem_cons_self _ _, by simp; omega⟩
termination_by e + 1 - s
decreasing_by omega

theorem generateRanges_pairwise (chunk e : Nat) (s : Nat) :
    (generateRanges chunk s e).Pairwise (fun a b => a.stop ≤ b.start) := by
  by_cases hc : 0 < chunk
  · by_cases hse : s ≤ e
    · rw [generateRanges_eq_pos chunk s e hc hse]
      refine List.Pairwise.cons ?_ (generateRanges_pairwise chunk e (s + chunk))
      intro r hr
      have := generateRanges_start_le r hr
      simp
      omega
    · rw [generateRanges_eq_neg chunk s e hse]; exact List.Pairwise.nil
  · rw [generateRanges]; simp [hc]
termination_by e + 1 - s
decreasing_by omega

theorem generateRanges_chain (chunk e : Nat) (hc : 0 < chunk) (s : Nat) :
    List.Chain' (fun a b => a.stop = b.start) (generateRanges chunk s e) := by
  by_cases hse : s ≤ e
  · rw [generateRanges_eq_pos chunk s e hc hse]
    by_cases hstep : s + chunk ≤ e
    · have hrest := generateRanges_chain chunk e hc (s + chunk)
      rw [generateRanges_eq_pos chunk (s + chunk) e hc hstep] at hrest ⊢
      refine List.Chain'.cons ?_ hrest
      simp
      omega
    · rw [generateRanges_eq_neg chunk (s + chunk) e hstep]
      exact List.chain'_singleton _
  · rw [generateRanges_eq_neg chunk s e hse]; exact List.chain'_nil
termination_by e + 1 - s
decreasing_by omega

theorem generateRanges_getLast (chunk e : Nat) (hc : 0 < chunk) (s : Nat) (hse : s ≤ e) :
    ∃ r, (generateRanges chunk s e).getLast? = some r ∧ r.stop = e := by
  rw [generateRanges_eq_pos chunk s e hc hse]
  by_cases hstep : s + chunk ≤ e
  · rcases generateRanges_getLast chunk e hc (s + chunk) hstep with ⟨r, hr, hstop⟩
    refine ⟨r, ?_, hstop⟩
    rcases htail : generateRanges chunk (s + chunk) e with _ | ⟨b, l⟩
    · rw [htail] at hr; cases hr
    · rw [htail] at hr
      rw [List.getLast?_cons_cons]
      exact hr
  · rw [generateRanges_eq_neg chunk (s + chunk) e hstep]
    refine ⟨⟨s, min (s + chunk) e⟩, rfl, ?_⟩
    simp
    omega
termination_by e + 1 - s
decreasing_by omega

/-- C3: for every chunk width, start and end with start ≤ end, the windows
generated by the traverser tile the half-open range exactly: every day of
`[start, end)` lies in some window and no other day does, the windows are
pairwise disjoint and adjacent in order (each window stops where the next
starts), and the last window stops at the global end.  The deployed traverser
`generateWeeklyRanges` is the instance `chunk = 7`. -/
theorem window_coverage (chunk s e : Nat) (hc : 0 < chunk) (hse : s ≤ e) :
    (∀ x, coveredBy (generateRanges chunk s e) x ↔ s ≤ x ∧ x < e)
    ∧ (generateRanges chunk s e).Pairwise (fun a b => a.stop ≤ b.start)
    ∧ List.Chain' (fun a b => a.stop = b.start) (generateRanges chunk s e)
    ∧ (∃ r, (generateRanges chunk s e).getLast? = some r ∧ r.stop = e)
    ∧ generateWeeklyRanges s e = generateRanges 7 s e := by
  refine ⟨coveredBy_generateRanges chunk e hc s hse, generateRanges_pairwise chunk e s,
    generateRanges_chain chunk e hc s, generateRanges_getLast chunk e hc s hse, rfl⟩

/-- Witness for C3: a concrete instantiation at chunk 7, range 0..16. -/
theorem window_coverage_witness :
    0 < 7 ∧ 0 ≤ 16 ∧
      ((∀ x, coveredBy (generateRanges 7 0 16) x ↔ 0 ≤ x ∧ x < 16)
      ∧ (generateRanges 7 0 16).Pairwise (fun a b => a.stop ≤ b.start)
      ∧ List.Chain' (fun a b => a.stop = b.start) (generateRanges 7 0 16)
      ∧ (∃ r, (generateRanges 7 0 16).getLast? = some r ∧ r.stop = 16)
      ∧ generateWeeklyRanges 0 16 = generateRanges 7 0 16) :=
  ⟨by decide, by decide, window_coverage 7 0 16 (by decide) (by decide)⟩

/-! ## Source-URL to destination-key mapping: `getS3KeyFromUrl`
(scripts/fetch-by-week.js lines 474-483)

The source runs `url.match(/\/auctionimages\/(.+)$/)`; on a match it returns
`'lotimages/' + match[1]`, otherwise `new URL(url).pathname.replace(/^\//, '')`.
The regular expression matches at the first occurrence of the substring
`/auctionimages/` that is followed by at least one character, and the capture
group is everything from there to the end of the string (URLs carry no line
terminators, so the dot matches every remaining character).  Strings are
embedded as their character lists. -/

/-- Boolean test that `p` matches at the head of `l`. -/
def headMatch : List Char → List Char → Bool
  | [], _ => true
  | _ :: _, [] => false
  | p :: ps, c :: cs => (p == c) && headMatch ps cs

/-- Remainder of `l` after the first occurrence of `p`, if any; the embedding
of a leftmost regular-expression search for a literal pattern. -/
def afterFirst (p : List Char) : List Char → Option (List Char)
  | [] => if headMatch p [] then some [] else none
  | c :: cs =>
    if headMatch p (c :: cs) then some ((c :: cs).drop p.length)
    else afterFirst p cs

/-- Literal pattern of the source regular expression. -/
def auctionSeg : List Char := "/auctionimages/".toList

/-- Modelled collaborator: the WHATWG `URL.pathname` of a plain
`scheme://host/path?query#fragment` URL (no escaping or normalization).  The
path runs from the first slash after the `://` to the first `?` or `#`; an
absent path serializes as `/`. -/
def urlPathname (url : String) : String :=
  let rest :=
    match afterFirst "://".toList url.toList with
    | some r => r
    | none => url.toList
  let p := rest.dropWhile (fun c => c != '/')
  let p := p.takeWhile (fun c => c != '?' && c != '#')
  String.mk (if p.isEmpty then ['/'] else p)

/-- Embedding of `.replace(/^\//, '')`. -/
def stripLeadingSlash (s : String) : String :=
  match s.toList with
  | '/' :: rest => String.mk rest
  | l => String.mk l

def getS3KeyFromUrl (url : String) : String :=
  match afterFirst auctionSeg url.toList with
  | some rest =>
      if rest.isEmpty then stripLeadingSlash (urlPathname url)
      else "lotimages/" ++ String.mk rest
  | none => stripLeadingSlash (urlPathname url)

/-- Mapping as worded by the claim: rewrite exactly when the URL path contains
the segment, keying on the remainder of the path (written from the claim, for
comparison with the source function). -/
def claimS3KeyFromUrl (url : String) : String :=
  let p := urlPathname url
  match afterFirst auctionSeg p.toList with
  | some rest => "lotimages/" ++ String.mk rest
  | none => stripLeadingSlash p

theorem headMatch_iff (p : List Char) : ∀ l, headMatch p l = true ↔ ∃ t, l = p ++ t := by
  induction p with
  | nil => intro l; simp [headMatch]
  | cons a ps ih =>
    intro l
    cases l with
    | nil => simp [headMatch]
    | cons c cs =>
      simp only [headMatch, Bool.and_eq_true, beq_iff_eq, ih cs]
      constructor
      · rintro ⟨rfl, t, rfl⟩; exact ⟨t, rfl⟩
      · rintro ⟨t, h⟩
        cases h
        exact ⟨rfl, t, rfl⟩

theorem afterFirst_of_first {p : List Char} :
    ∀ (pre l rest : List Char), l = pre ++ p ++ rest →
      (∀ j, j < pre.length → headMatch p (l.drop j) = false) →
      afterFirst p l = some rest := by
  intro pre
  induction pre with
  | nil =>
    intro l rest hdec _
    subst hdec
    have hm : headMatch p ([] ++ p ++ rest) = true := by
      rw [headMatch_iff]
      exact ⟨rest, by simp⟩
    cases hp : (p ++ rest : List Char) with
    | nil =>
      have : p = [] ∧ rest = [] := by
        constructor
        · cases p with
          | nil => rfl
          | cons a as => simp at hp
        · cases p <;> simp_all
      rcases this with ⟨h1, h2⟩
      subst h1; subst h2
      simp [afterFirst, headMatch]
    | cons c cs =>
      simp only [List.nil_append] at hp ⊢
      rw [hp]
      have hm2 : headMatch p (c :: cs) = true := by rw [← hp]; simpa using hm
      simp only [afterFirst, hm2, if_pos]
      rw [← hp]
      congr 1
      have := List.drop_left p rest
      simpa using this
  | cons a pre ih =>
    intro l rest hdec hno
    subst hdec
    have hnm : headMatch p ((a :: pre) ++ p ++ rest) = false := by
      have := hno 0 (by simp)
      simpa using this
    simp only [List.cons_append] at hnm ⊢
    rw [afterFirst]
    have hnm2 : headMatch p (a :: (pre ++ (p ++ rest))) = false := by
      simpa [List.append_assoc] using hnm
    rw [if_neg (by simp [hnm2])]
    refine ih (pre ++ p ++ rest) rest rfl ?_
    intro j hj
    have := hno (j + 1) (by simpa using Nat.succ_lt_succ hj)
    simpa [List.append_assoc] using this

theorem afterFirst_some {p : List Char} :
    ∀ (l rest : List Char), afterFirst p l = some rest →
      ∃ pre, l = pre ++ p ++ rest := by
  intro l
  induction l with
  | nil =>
    intro rest h
    simp only [afterFirst] at h
    by_cases hm : headMatch p [] = true
    · rw [if_pos hm] at h
      cases h
      rw [headMatch_iff] at hm
      rcases hm with ⟨t, ht⟩
      have hp : p = [] := by cases p with
        | nil => rfl
        | cons a as => simp at ht
      exact ⟨[], by simp [hp]⟩
    · rw [if_neg hm] at h; cases h
  | cons c cs ih =>
    intro rest h
    simp only [afterFirst] at h
    by_cases hm : headMatch p (c :: cs) = true
    · rw [if_pos hm] at h
      rw [headMatch_iff] at hm
      rcases hm with ⟨t, ht⟩
      refine ⟨[], ?_⟩
      cases h
      rw [ht]
      have := List.drop_left p t
      simp [ht, this]
    · rw [if_neg hm] at h
      rcases ih rest h with ⟨pre, hpre⟩
      exact ⟨c :: pre, by simp [hpre]⟩

theorem afterFirst_none {p : List Char} :
    ∀ l, afterFirst p l = none → ∀ pre rest, l ≠ pre ++ p ++ rest := by
  intro l
  induction l with
  | nil =>
    intro h pre rest hdec
    simp only [afterFirst] at h
    by_cases hm : headMatch p [] = true
    · rw [if_pos hm] at h; cases h
    · have hp : p ≠ [] := by
        intro hp
        subst hp
        simp [headMatch] at hm
      rcases List.append_eq_nil.mp (List.append_eq_nil.mp hdec.symm).1 with ⟨_, h2⟩
      exact hp h2
  | cons c cs ih =>
    intro h pre rest hdec
    simp only [afterFirst] at h
    by_cases hm : headMatch p (c :: cs) = true
    · rw [if_pos hm] at h; cases h
    · rw [if_neg hm] at h
      cases pre with
      | nil =>
        apply hm
        rw [headMatch_iff]
        exact ⟨rest, by simpa using hdec⟩
      | cons a pre' =>
        simp only [List.cons_append, List.cons.injEq] at hdec
        exact ih h pre' rest hdec.2

/-- C10 counterexample: the URL `https://h/auctionimages/` has the path segment
`/auctionimages/` (with an empty remainder), yet the source falls back to the
pathname key `auctionimages/` because the regular expression demands at least
one character after the segment; the claim-worded mapping yields `lotimages/`. -/
theorem getS3KeyFromUrl_claim_counterexample :
    getS3KeyFromUrl "https://h/auctionimages/" = "auctionimages/"
    ∧ claimS3KeyFromUrl "https://h/auctionimages/" = "lotimages/"
    ∧ getS3KeyFromUrl "https://h/auctionimages/"
        ≠ claimS3KeyFromUrl "https://h/auctionimages/" := by
  refine ⟨by decide, by decide, by decide⟩

/-- C10 amended: the key mapping is the total function on URL strings that
rewrites on the first occurrence of the substring `/auctionimages/` in the full
URL when that occurrence is followed by at least one character, producing
`lotimages/` plus the remainder of the whole URL; every other URL (no such
occurrence, or the segment ends the string) is keyed by its pathname with the
leading slash removed.  Equal inputs yield equal keys since the mapping is a
function. -/
theorem getS3KeyFromUrl_amended (url : String) :
    (∀ pre rest, url.toList = pre ++ auctionSeg ++ rest → rest ≠ [] →
        (∀ j, j < pre.length → headMatch auctionSeg (url.toList.drop j) = false) →
        getS3KeyFromUrl url = "lotimages/" ++ String.mk rest)
    ∧ ((∀ j, j < url.toList.length →
          headMatch auctionSeg (url.toList.drop j) = true →
          url.toList.length ≤ j + auctionSeg.length) →
        getS3KeyFromUrl url = stripLeadingSlash (urlPathname url)) := by
  constructor
  · intro pre rest hdec hne hno
    have h := afterFirst_of_first pre url.toList rest hdec hno
    rw [getS3KeyFromUrl, h]
    simp [hne]
  · intro hall
    rw [getS3KeyFromUrl]
    cases h : afterFirst auctionSeg url.toList with
    | none => rfl
    | some rest =>
      rcases afterFirst_some url.toList rest h with ⟨pre, hpre⟩
      have hdrop : url.toList.drop pre.length = auctionSeg ++ rest := by
        rw [hpre, List.append_assoc]
        have := List.drop_left pre (auctionSeg ++ rest)
        simpa using this
      have hmatch : headMatch auctionSeg (url.toList.drop pre.length) = true := by
        rw [hdrop, headMatch_iff]
        exact ⟨rest, rfl⟩
      have hlen : url.toList.length = pre.length + auctionSeg.length + rest.length := by
        rw [hpre]; simp; omega
      have hseg : 0 < auctionSeg.length := by decide
      have hlt : pre.length < url.toList.length := by omega
      have := hall pre.length hlt hmatch
      have hrest : rest = [] := by
        have : rest.length = 0 := by omega
        exact List.length_eq_zero.mp this
      subst hrest
      simp

/-- Witness for C10 amended: both branches exercised on concrete URLs. -/
theorem getS3KeyFromUrl_amended_witness :
    getS3KeyFromUrl "https://h/auctionimages/3483/a.jpg" = "lotimages/3483/a.jpg"
    ∧ getS3KeyFromUrl "https://h/other/b.jpg" = "other/b.jpg" :=
  ⟨(getS3KeyFromUrl_amended "https://h/auctionimages/3483/a.jpg").1
      "https://h".toList "3483/a.jpg".toList (by decide) (by decide)
      (by decide),
   (getS3KeyFromUrl_amended "https://h/other/b.jpg").2 (by decide)⟩

/-! ## Bounded-concurrency transfer engine (scripts/fetch-by-week.js lines 346-825)

The engine state is the in-memory `checkpoint` object; the S3 client, the CDN
and the retry timers are external, so one transfer attempt (fetch plus
streamed upload) is modelled by an oracle giving the outcome of each attempt
number, and the `HeadObject` existence probe by a three-way outcome.  Counter
updates translate the source field by field. -/

/-- Outcome of one fetch-and-upload attempt inside `uploadImageToS3`
(lines 506-555): the fetch can 404, fail with another status, or fail on the
network, and the streamed upload can fail; on success the content length is
the byte count. -/
inductive AttemptOut where
  | ok (bytes : Nat)
  | notFound
  | httpErr (code : Nat)
  | netErr (msg : String)
  | uploadErr (msg : String)
deriving DecidableEq

/-- Error message thrown by the attempt, as built at lines 517-520. -/
def attemptErrMsg (imageUrl : String) : AttemptOut → String
  | .ok _ => ""
  | .notFound => "404 Not Found: " ++ imageUrl
  | .httpErr code => "HTTP " ++ toString code
  | .netErr msg => msg
  | .uploadErr msg => msg

/-- Recursion core of `uploadImageToS3`: the guard `retryCount < MAX_RETRIES`
of the source is carried as the structural fuel `maxRetries - retryCount`,
which is positive exactly when the guard holds. -/
def uploadGo (oracle : Nat → AttemptOut) (imageUrl : String) :
    Nat → Nat → Except String Nat × Nat
  | retryCount, fuel =>
    match oracle retryCount with
    | .ok bytes => (Except.ok bytes, 1)
    | out =>
      match fuel with
      | 0 => (Except.error (attemptErrMsg imageUrl out), 1)
      | fuel + 1 =>
        let r := uploadGo oracle imageUrl (retryCount + 1) fuel
        (r.1, r.2 + 1)

/-- Embedding of `uploadImageToS3(imageUrl, s3Key, retryCount)` (lines
506-555): every failed attempt — a 404 included — is retried while
`retryCount < MAX_RETRIES`; the result carries the number of fetch attempts
performed. -/
def uploadImageToS3 (oracle : Nat → AttemptOut) (imageUrl : String)
    (maxRetries retryCount : Nat) : Except String Nat × Nat :=
  uploadGo oracle imageUrl retryCount (maxRetries - retryCount)

/-- Outcome of the `objectExists` HeadObject probe (lines 488-501): the object
is present, absent (NotFound / 404), or the probe throws another error which
`objectExists` re-raises into `processImage`. -/
inductive ExistsOutcome where
  | present
  | absent
  | headErr (msg : String)
deriving DecidableEq

/-- Transfer unit as destructured at line 561. -/
structure TransferUnit where
  imageUrl : String
  s3Key : String
  lotId : Nat
  auctionId : Nat
deriving DecidableEq

/-- Failure record pushed at lines 589-598 (the wall-clock timestamp is not
modelled). -/
structure Failure where
  url : String
  s3Key : String
  error : String
  lotId : Nat
  auctionId : Nat
deriving DecidableEq

/-- The global `checkpoint` object (lines 348-360); the two JavaScript `Set`s
become finite sets of strings, and `startedAt`/`lastUpdated` timestamps are
not modelled. -/
structure Checkpoint where
  processedLotFiles : Finset String
  uploadedImages : Finset String
  successfulUploads : Nat
  failedUploads : Nat
  skippedUploads : Nat
  totalImages : Nat
  totalLotFiles : Nat
  failures : List Failure
  bytesTransferred : Nat
deriving DecidableEq

/-- Fresh checkpoint state (all fields of the literal at lines 348-360). -/
def Checkpoint.empty : Checkpoint :=
  ⟨∅, ∅, 0, 0, 0, 0, 0, [], 0⟩

/-- Result value returned by `processImage` (status plus the attempt count of
the underlying upload; `skipped` performs no fetch). -/
inductive ProcResult where
  | skipped
  | success (bytes attempts : Nat)
  | failed (error : String) (attempts : Nat)
deriving DecidableEq

/-- Embedding of `processImage(imageData)` (lines 560-603): skip when the key
is already in the checkpoint set; otherwise probe S3 — present inserts the key
and counts a skip, a probe error is caught as a failure; on absence run the
retrying upload, recording success (key inserted, bytes accumulated) or a
failure entry. -/
def processImage (maxRetries : Nat) (u : TransferUnit) (exOut : ExistsOutcome)
    (oracle : Nat → AttemptOut) (cp : Checkpoint) : Checkpoint × ProcResult :=
  if u.s3Key ∈ cp.uploadedImages then
    ({ cp with skippedUploads := cp.skippedUploads + 1 }, ProcResult.skipped)
  else
    match exOut with
    | .present =>
        ({ cp with uploadedImages := insert u.s3Key cp.uploadedImages,
                   skippedUploads := cp.skippedUploads + 1 }, ProcResult.skipped)
    | .headErr msg =>
        ({ cp with failedUploads := cp.failedUploads + 1,
                   failures := cp.failures ++
                     [⟨u.imageUrl, u.s3Key, msg, u.lotId, u.auctionId⟩] },
         ProcResult.failed msg 0)
    | .absent =>
        match uploadImageToS3 oracle u.imageUrl maxRetries 0 with
        | (Except.ok bytes, n) =>
            ({ cp with uploadedImages := insert u.s3Key cp.uploadedImages,
                       successfulUploads := cp.successfulUploads + 1,
                       bytesTransferred := cp.bytesTransferred + bytes },
             ProcResult.success bytes n)
        | (Except.error e, n) =>
            ({ cp with failedUploads := cp.failedUploads + 1,
                       failures := cp.failures ++
                         [⟨u.imageUrl, u.s3Key, e, u.lotId, u.auctionId⟩] },
             ProcResult.failed e n)

/-- A transfer unit bundled with the behaviour of its external collaborators. -/
structure UnitJob where
  unit : TransferUnit
  exOut : ExistsOutcome
  oracle : Nat → AttemptOut

/-- Sequential run of the engine over a list of units.  Counter and set
updates commute with the cooperative completion order of
`processImagesWithConcurrency` (each `.then` callback runs atomically), so the
aggregate checkpoint is modelled by the in-order fold. -/
def runUnits (maxRetries : Nat) (jobs : List UnitJob) (cp : Checkpoint) :
    Checkpoint × List ProcResult :=
  match jobs with
  | [] => (cp, [])
  | j :: rest =>
    let p := processImage maxRetries j.unit j.exOut j.oracle cp
    let q := runUnits maxRetries rest p.1
    (q.1, p.2 :: q.2)

theorem uploadGo_all404 (oracle : Nat → AttemptOut) (url : String)
    (h : ∀ i, oracle i = AttemptOut.notFound) :
    ∀ fuel k, uploadGo oracle url k fuel
      = (Except.error ("404 Not Found: " ++ url), fuel + 1) := by
  intro fuel
  induction fuel with
  | zero =>
    intro k
    rw [uploadGo, h k]
    rfl
  | succ fuel ih =>
    intro k
    rw [uploadGo, h k]
    simp only [ih (k + 1)]

theorem uploadImageToS3_all404 (oracle : Nat → AttemptOut) (url : String)
    (maxRetries : Nat) (h : ∀ i, oracle i = AttemptOut.notFound) :
    uploadImageToS3 oracle url maxRetries 0
      = (Except.error ("404 Not Found: " ++ url), maxRetries + 1) := by
  rw [uploadImageToS3, uploadGo_all404 oracle url h]
  simp

/-- C1 counterexample: a source that answers 404 on every fetch of a transfer
unit is fetched four times under the configured `MAX_RETRIES = 3`, not once —
the thrown `404 Not Found` error is caught by the generic retry handler of
`uploadImageToS3` like any transient failure. -/
theorem transfer404_counterexample :
    (uploadImageToS3 (fun _ => AttemptOut.notFound) "https://cdn/img.jpg" 3 0).2 = 4
    ∧ (uploadImageToS3 (fun _ => AttemptOut.notFound) "https://cdn/img.jpg" 3 0).2 ≠ 1 := by
  exact ⟨rfl, by decide⟩

/-- C1 amended: a transfer unit whose source fetch returns HTTP 404 is retried
like any other failing unit — the engine performs `MAX_RETRIES + 1` fetch
attempts — and after exhaustion exactly one permanent per-unit failure is
recorded (the failure counter rises by one and one failure entry carrying the
404 message, source URL, destination key and parent identifiers is appended);
the destination key is not marked uploaded. -/
theorem transfer404_amended (maxRetries : Nat) (u : TransferUnit)
    (oracle : Nat → AttemptOut) (cp : Checkpoint)
    (h404 : ∀ i, oracle i = AttemptOut.notFound)
    (hnew : u.s3Key ∉ cp.uploadedImages) :
    processImage maxRetries u ExistsOutcome.absent oracle cp
      = ({ cp with
             failedUploads := cp.failedUploads + 1
             failures := cp.failures ++
               [⟨u.imageUrl, u.s3Key, "404 Not Found: " ++ u.imageUrl,
                 u.lotId, u.auctionId⟩] },
         ProcResult.failed ("404 Not Found: " ++ u.imageUrl) (maxRetries + 1)) := by
  rw [processImage, if_neg hnew]
  simp only [uploadImageToS3_all404 oracle u.imageUrl maxRetries h404]

/-- Witness for C1 amended: four attempts and one failure record on a concrete
all-404 unit with `MAX_RETRIES = 3`. -/
theorem transfer404_amended_witness :
    processImage 3 ⟨"https://cdn/img.jpg", "lotimages/1/a.jpg", 5, 9⟩
        ExistsOutcome.absent (fun _ => AttemptOut.notFound) Checkpoint.empty
      = ({ Checkpoint.empty with
             failedUploads := 1
             failures := [⟨"https://cdn/img.jpg", "lotimages/1/a.jpg",
               "404 Not Found: https://cdn/img.jpg", 5, 9⟩] },
         ProcResult.failed "404 Not Found: https://cdn/img.jpg" 4) :=
  transfer404_amended 3 ⟨"https://cdn/img.jpg", "lotimages/1/a.jpg", 5, 9⟩
    (fun _ => AttemptOut.notFound) Checkpoint.empty (fun _ => rfl) (by decide)

/-- C9: a destination key enters the checkpoint `uploadedImages` set during
`processImage` only if it was already there, or it is the unit's key and
either the S3 existence probe reported the object present or the streamed
upload succeeded; a unit whose processing fails leaves the set unchanged, so
its key stays eligible for a future attempt. -/
theorem uploadedImages_insert_only_on_success (maxRetries : Nat) (u : TransferUnit)
    (exOut : ExistsOutcome) (oracle : Nat → AttemptOut) (cp : Checkpoint) :
    (∀ k, k ∈ (processImage maxRetries u exOut oracle cp).1.uploadedImages →
        k ∈ cp.uploadedImages ∨ (k = u.s3Key ∧ (exOut = ExistsOutcome.present
          ∨ ∃ b n, (processImage maxRetries u exOut oracle cp).2
              = ProcResult.success b n)))
    ∧ (∀ e n, (processImage maxRetries u exOut oracle cp).2 = ProcResult.failed e n →
        (processImage maxRetries u exOut oracle cp).1.uploadedImages
          = cp.uploadedImages) := by
  by_cases hmem : u.s3Key ∈ cp.uploadedImages
  · simp only [processImage, if_pos hmem]
    exact ⟨fun k hk => Or.inl hk, fun e n h => by cases h⟩
  · cases exOut with
    | present =>
      simp only [processImage, if_neg hmem]
      refine ⟨fun k hk => ?_, fun e n h => by cases h⟩
      rcases Finset.mem_insert.mp hk with h | h
      · exact Or.inr ⟨h, Or.inl trivial⟩
      · exact Or.inl h
    | headErr msg =>
      simp only [processImage, if_neg hmem]
      exact ⟨fun k hk => Or.inl hk, fun e n h => trivial⟩
    | absent =>
      rcases hup : uploadImageToS3 oracle u.imageUrl maxRetries 0 with ⟨res, n0⟩
      cases res with
      | ok b =>
        simp only [processImage, if_neg hmem, hup]
        refine ⟨fun k hk => ?_, fun e n h => by cases h⟩
        rcases Finset.mem_insert.mp hk with h | h
        · exact Or.inr ⟨h, Or.inr ⟨b, n0, rfl⟩⟩
        · exact Or.inl h
      | error msg =>
        simp only [processImage, if_neg hmem, hup]
        exact ⟨fun k hk => Or.inl hk, fun e n h => trivial⟩

/-- Witness for C9: processing a concrete unit whose every fetch fails leaves
the uploaded-key set of the empty checkpoint unchanged. -/
theorem uploadedImages_insert_only_on_success_witness :
    (processImage 3 ⟨"https://cdn/w9.jpg", "lotimages/9/w.jpg", 4, 8⟩
        ExistsOutcome.absent (fun _ => AttemptOut.notFound)
        Checkpoint.empty).1.uploadedImages = Checkpoint.empty.uploadedImages :=
  (uploadedImages_insert_only_on_success 3
      ⟨"https://cdn/w9.jpg", "lotimages/9/w.jpg", 4, 8⟩
      ExistsOutcome.absent (fun _ => AttemptOut.notFound) Checkpoint.empty).2
    ("404 Not Found: https://cdn/w9.jpg") 4 rfl

theorem processImage_terminal_sum (maxRetries : Nat) (u : TransferUnit)
    (exOut : ExistsOutcome) (oracle : Nat → AttemptOut) (cp : Checkpoint) :
    (processImage maxRetries u exOut oracle cp).1.successfulUploads
        + (processImage maxRetries u exOut oracle cp).1.failedUploads
        + (processImage maxRetries u exOut oracle cp).1.skippedUploads
      = cp.successfulUploads + cp.failedUploads + cp.skippedUploads + 1 := by
  by_cases hmem : u.s3Key ∈ cp.uploadedImages
  · simp only [processImage, if_pos hmem]; omega
  · cases exOut with
    | present => simp only [processImage, if_neg hmem]; omega
    | headErr msg => simp only [processImage, if_neg hmem]; omega
    | absent =>
      rcases hup : uploadImageToS3 oracle u.imageUrl maxRetries 0 with ⟨res, n0⟩
      cases res with
      | ok b => simp only [processImage, if_neg hmem, hup]; omega
      | error msg => simp only [processImage, if_neg hmem, hup]; omega

theorem processImage_counters_mono (maxRetries : Nat) (u : TransferUnit)
    (exOut : ExistsOutcome) (oracle : Nat → AttemptOut) (cp : Checkpoint) :
    cp.successfulUploads ≤ (processImage maxRetries u exOut oracle cp).1.successfulUploads
    ∧ cp.failedUploads ≤ (processImage maxRetries u exOut oracle cp).1.failedUploads
    ∧ cp.skippedUploads ≤ (processImage maxRetries u exOut oracle cp).1.skippedUploads
    ∧ cp.bytesTransferred ≤ (processImage maxRetries u exOut oracle cp).1.bytesTransferred := by
  by_cases hmem : u.s3Key ∈ cp.uploadedImages
  · simp only [processImage, if_pos hmem]; omega
  · cases exOut with
    | present => simp only [processImage, if_neg hmem]; omega
    | headErr msg => simp only [processImage, if_neg hmem]; omega
    | absent =>
      rcases hup : uploadImageToS3 oracle u.imageUrl maxRetries 0 with ⟨res, n0⟩
      cases res with
      | ok b => simp only [processImage, if_neg hmem, hup]; omega
      | error msg => simp only [processImage, if_neg hmem, hup]; omega

theorem runUnits_counters_mono (maxRetries : Nat) :
    ∀ (jobs : List UnitJob) (cp : Checkpoint),
      cp.successfulUploads ≤ (runUnits maxRetries jobs cp).1.successfulUploads
      ∧ cp.failedUploads ≤ (runUnits maxRetries jobs cp).1.failedUploads
      ∧ cp.skippedUploads ≤ (runUnits maxRetries jobs cp).1.skippedUploads
      ∧ cp.bytesTransferred ≤ (runUnits maxRetries jobs cp).1.bytesTransferred := by
  intro jobs
  induction jobs with
  | nil => intro cp; simp [runUnits]
  | cons j rest ih =>
    intro cp
    have h1 := processImage_counters_mono maxRetries j.unit j.exOut j.oracle cp
    have h2 := ih (processImage maxRetries j.unit j.exOut j.oracle cp).1
    simp only [runUnits]
    omega

theorem runUnits_append (maxRetries : Nat) :
    ∀ (l1 l2 : List UnitJob) (cp : Checkpoint),
      (runUnits maxRetries (l1 ++ l2) cp).1
        = (runUnits maxRetries l2 (runUnits maxRetries l1 cp).1).1 := by
  intro l1
  induction l1 with
  | nil => intro l2 cp; simp [runUnits]
  | cons j rest ih =>
    intro l2 cp
    simp only [List.cons_append, runUnits]
    exact ih l2 _

theorem runUnits_terminal_sum (maxRetries : Nat) :
    ∀ (jobs : List UnitJob) (cp : Checkpoint),
      (runUnits maxRetries jobs cp).1.successfulUploads
          + (runUnits maxRetries jobs cp).1.failedUploads
          + (runUnits maxRetries jobs cp).1.skippedUploads
        = cp.successfulUploads + cp.failedUploads + cp.skippedUploads + jobs.length := by
  intro jobs
  induction jobs with
  | nil => intro cp; simp [runUnits]
  | cons j rest ih =>
    intro cp
    have h1 := processImage_terminal_sum maxRetries j.unit j.exOut j.oracle cp
    have h2 := ih (processImage maxRetries j.unit j.exOut j.oracle cp).1
    simp only [runUnits, List.length_cons]
    omega

/-- C4: along any run of the transfer engine the four global counters are
monotone (the counters after a prefix of the unit list never exceed those
after the whole list), at completion succeeded + failed + skipped grew by
exactly the number of units processed — each terminal unit counted once — and
on the concrete 3-unit run whose second unit answers 503 twice and then 200,
that unit is fetched three times (two retries), every unit succeeds once, and
the summary reads succeeded 3, failed 0, skipped 0. -/
theorem transfer_counters (maxRetries : Nat) :
    (∀ (l1 l2 : List UnitJob) (cp : Checkpoint),
        (runUnits maxRetries l1 cp).1.successfulUploads
            ≤ (runUnits maxRetries (l1 ++ l2) cp).1.successfulUploads
        ∧ (runUnits maxRetries l1 cp).1.failedUploads
            ≤ (runUnits maxRetries (l1 ++ l2) cp).1.failedUploads
        ∧ (runUnits maxRetries l1 cp).1.skippedUploads
            ≤ (runUnits maxRetries (l1 ++ l2) cp).1.skippedUploads
        ∧ (runUnits maxRetries l1 cp).1.bytesTransferred
            ≤ (runUnits maxRetries (l1 ++ l2) cp).1.bytesTransferred)
    ∧ (∀ (jobs : List UnitJob) (cp : Checkpoint),
        (runUnits maxRetries jobs cp).1.successfulUploads
            + (runUnits maxRetries jobs cp).1.failedUploads
            + (runUnits maxRetries jobs cp).1.skippedUploads
          = cp.successfulUploads + cp.failedUploads + cp.skippedUploads + jobs.length)
    ∧ ((runUnits 3
          [⟨⟨"u1", "k1", 1, 1⟩, ExistsOutcome.absent, fun _ => AttemptOut.ok 10⟩,
           ⟨⟨"u2", "k2", 2, 1⟩, ExistsOutcome.absent,
             fun n => if n < 2 then AttemptOut.httpErr 503 else AttemptOut.ok 20⟩,
           ⟨⟨"u3", "k3", 3, 1⟩, ExistsOutcome.absent, fun _ => AttemptOut.ok 30⟩]
          Checkpoint.empty).2
          = [ProcResult.success 10 1, ProcResult.success 20 3, ProcResult.success 30 1]
        ∧ (runUnits 3
          [⟨⟨"u1", "k1", 1, 1⟩, ExistsOutcome.absent, fun _ => AttemptOut.ok 10⟩,
           ⟨⟨"u2", "k2", 2, 1⟩, ExistsOutcome.absent,
             fun n => if n < 2 then AttemptOut.httpErr 503 else AttemptOut.ok 20⟩,
           ⟨⟨"u3", "k3", 3, 1⟩, ExistsOutcome.absent, fun _ => AttemptOut.ok 30⟩]
          Checkpoint.empty).1.successfulUploads = 3
        ∧ (runUnits 3
          [⟨⟨"u1", "k1", 1, 1⟩, ExistsOutcome.absent, fun _ => AttemptOut.ok 10⟩,
           ⟨⟨"u2", "k2", 2, 1⟩, ExistsOutcome.absent,
             fun n => if n < 2 then AttemptOut.httpErr 503 else AttemptOut.ok 20⟩,
           ⟨⟨"u3", "k3", 3, 1⟩, ExistsOutcome.absent, fun _ => AttemptOut.ok 30⟩]
          Checkpoint.empty).1.failedUploads = 0
        ∧ (runUnits 3
          [⟨⟨"u1", "k1", 1, 1⟩, ExistsOutcome.absent, fun _ => AttemptOut.ok 10⟩,
           ⟨⟨"u2", "k2", 2, 1⟩, ExistsOutcome.absent,
             fun n => if n < 2 then AttemptOut.httpErr 503 else AttemptOut.ok 20⟩,
           ⟨⟨"u3", "k3", 3, 1⟩, ExistsOutcome.absent, fun _ => AttemptOut.ok 30⟩]
          Checkpoint.empty).1.skippedUploads = 0) := by
  refine ⟨?_, runUnits_terminal_sum maxRetries, by decide, by decide, by decide, by decide⟩
  intro l1 l2 cp
  rw [runUnits_append maxRetries l1 l2 cp]
  exact runUnits_counters_mono maxRetries l2 (runUnits maxRetries l1 cp).1

/-! ## Lot-file loop of `migrate` under shutdown (lines 608-656 and 807-825)

The `shutdownRequested` flag is set asynchronously by a signal and observed
cooperatively at the top of the lot-file loop of `migrate` and at the top of
the scheduling loop of `processImagesWithConcurrency`.  It is modelled by a
threshold `sdAfter` on the global count of units processed so far: the flag
reads true once at least `sdAfter` units have completed (`none` = no signal).
Unit processing is serialized as in `runUnits`. -/

def sdObserved : Option Nat → Nat → Bool
  | none, _ => false
  | some t, clock => t ≤ clock

/-- Scheduling loop of `processImagesWithConcurrency` (lines 608-656): at the
top of each round the shutdown flag is checked; when it reads true the loop
stops taking new units and returns with the remaining units never started.
Returns the checkpoint and the new global unit count. -/
def processImagesSd (maxRetries : Nat) (sdAfter : Option Nat) :
    List UnitJob → Nat → Checkpoint → Checkpoint × Nat
  | [], clock, cp => (cp, clock)
  | j :: rest, clock, cp =>
    if sdObserved sdAfter clock then (cp, clock)
    else
      processImagesSd maxRetries sdAfter rest (clock + 1)
        (processImage maxRetries j.unit j.exOut j.oracle cp).1

/-- One lot images file with the transfer units extracted from it. -/
structure LotGroup where
  name : String
  jobs : List UnitJob

/-- Lot-file loop of `migrate` (lines 807-825): check the shutdown flag at the
top; otherwise run the group through the engine and add the lot file to
`processedLotFiles` — unconditionally, also when the engine returned early
because the flag was raised mid-group. -/
def migrateLoop (maxRetries : Nat) (sdAfter : Option Nat) :
    List LotGroup → Nat → Checkpoint → Checkpoint
  | [], _, cp => cp
  | g :: rest, clock, cp =>
    if sdObserved sdAfter clock then cp
    else
      let p := processImagesSd maxRetries sdAfter g.jobs clock cp
      migrateLoop maxRetries sdAfter rest p.2
        { p.1 with processedLotFiles := insert g.name p.1.processedLotFiles }

/-- Embedding of `migrate` from the lot-file scan on (lines 786-825): groups
whose name is already in `processedLotFiles` are filtered out, the rest are
processed in order. -/
def migrate (maxRetries : Nat) (sdAfter : Option Nat) (groups : List LotGroup)
    (cp : Checkpoint) : Checkpoint :=
  migrateLoop maxRetries sdAfter
    (groups.filter (fun g => !(decide (g.name ∈ cp.processedLotFiles)))) 0 cp

/-- C2 evaluated at the failing input: a single lot group of two units, with
the shutdown signal observed after the first unit completes, ends with the
group in `processedLotFiles` although only one of its two units ever reached a
terminal state — the partially processed group is marked done. -/
theorem migrate_shutdown_marks_partial_group :
    ("g1" ∈ (migrate 3 (some 1)
        [⟨"g1", [⟨⟨"u1", "k1", 1, 1⟩, ExistsOutcome.absent, fun _ => AttemptOut.ok 10⟩,
                 ⟨⟨"u2", "k2", 2, 1⟩, ExistsOutcome.absent, fun _ => AttemptOut.ok 20⟩]⟩]
        Checkpoint.empty).processedLotFiles)
    ∧ ((migrate 3 (some 1)
        [⟨"g1", [⟨⟨"u1", "k1", 1, 1⟩, ExistsOutcome.absent, fun _ => AttemptOut.ok 10⟩,
                 ⟨⟨"u2", "k2", 2, 1⟩, ExistsOutcome.absent, fun _ => AttemptOut.ok 20⟩]⟩]
        Checkpoint.empty).successfulUploads
      + (migrate 3 (some 1)
        [⟨"g1", [⟨⟨"u1", "k1", 1, 1⟩, ExistsOutcome.absent, fun _ => AttemptOut.ok 10⟩,
                 ⟨⟨"u2", "k2", 2, 1⟩, ExistsOutcome.absent, fun _ => AttemptOut.ok 20⟩]⟩]
        Checkpoint.empty).failedUploads
      + (migrate 3 (some 1)
        [⟨"g1", [⟨⟨"u1", "k1", 1, 1⟩, ExistsOutcome.absent, fun _ => AttemptOut.ok 10⟩,
                 ⟨⟨"u2", "k2", 2, 1⟩, ExistsOutcome.absent, fun _ => AttemptOut.ok 20⟩]⟩]
        Checkpoint.empty).skippedUploads = 1) := by
  exact ⟨by decide, by decide⟩

/-! ## Concurrency discipline of `processImagesWithConcurrency` (lines 608-656)

The cooperative scheduler is embedded as a transition system over the
observable scheduling state: `nextIndex` is the loop variable `index`,
`inFlight` the size of the `inFlight` promise set, `completed` the number of
settled promises.  The inner `while (inFlight.size < CONCURRENT_UPLOADS &&
index < images.length)` starts one unit per `start` step; a `.then` callback
deleting its promise from the set is one `complete` step.  Shutdown only
removes `start` steps, so the bound below covers runs with or without it. -/

structure EngineState where
  nextIndex : Nat
  inFlight : Nat
  completed : Nat
deriving DecidableEq

inductive EngineStep (limit total : Nat) : EngineState → EngineState → Prop where
  | start (s : EngineState) (hroom : s.inFlight < limit) (hleft : s.nextIndex < total) :
      EngineStep limit total s ⟨s.nextIndex + 1, s.inFlight + 1, s.completed⟩
  | complete (s : EngineState) (hbusy : 0 < s.inFlight) :
      EngineStep limit total s ⟨s.nextIndex, s.inFlight - 1, s.completed + 1⟩

/-- Start of the scheduling loop: `index = 0`, empty in-flight set. -/
def engineInit : EngineState := ⟨0, 0, 0⟩

/-- States the scheduling loop can reach. -/
def EngineReachable (limit total : Nat) (s : EngineState) : Prop :=
  Relation.ReflTransGen (EngineStep limit total) engineInit s

/-- C5: in every reachable state of the transfer scheduler the number of
in-flight operations never exceeds the configured ceiling, and from a state
with a full pool the only enabled transition is the completion of an in-flight
operation — no new unit may begin until one completes. -/
theorem concurrency_bound (limit total : Nat) (s : EngineState)
    (hreach : EngineReachable limit total s) :
    s.inFlight ≤ limit
    ∧ (s.inFlight = limit → ∀ s', EngineStep limit total s s' →
        s'.nextIndex = s.nextIndex ∧ s'.inFlight + 1 = limit ∧
          s'.completed = s.completed + 1) := by
  constructor
  · induction hreach with
    | refl => exact Nat.zero_le limit
    | tail hab hbc ih =>
      cases hbc with
      | start hroom hleft => exact hroom
      | complete hbusy => simp; omega
  · intro hfull s' hstep
    cases hstep with
    | start hroom hleft => omega
    | complete hbusy =>
      refine ⟨rfl, ?_, rfl⟩
      simp
      omega

/-- Witness for C5: with ceiling 2 over 3 units, the state after two
admissions is reachable and satisfies the bound. -/
theorem concurrency_bound_witness :
    EngineReachable 2 3 ⟨2, 2, 0⟩
    ∧ (⟨2, 2, 0⟩ : EngineState).inFlight ≤ 2 := by
  have h1 : EngineStep 2 3 engineInit ⟨1, 1, 0⟩ :=
    EngineStep.start engineInit (by decide) (by decide)
  have h2 : EngineStep 2 3 ⟨1, 1, 0⟩ ⟨2, 2, 0⟩ :=
    EngineStep.start ⟨1, 1, 0⟩ (by decide) (by decide)
  have hreach : EngineReachable 2 3 ⟨2, 2, 0⟩ :=
    Relation.ReflTransGen.tail (Relation.ReflTransGen.tail Relation.ReflTransGen.refl h1) h2
  exact ⟨hreach, (concurrency_bound 2 3 ⟨2, 2, 0⟩ hreach).1⟩

/-! ## Rate-limited retrying executor: `APIClient.makeRequest` (part_004 lines 255-306)

`makeRequest` awaits `this.rateLimit()` once — which unconditionally writes
the shared `lastRequestTime` — and then runs the retry loop
`for (attempt = 0; attempt <= maxRetries; attempt++)`.  The loop is embedded
with the structural fuel `maxRetries - attempt` (`fuel = 0` is exactly
`isLastAttempt`); each run returns the parsed payload (or the `null`
sentinel) together with the trace of observable events, so the theorems can
count timestamp writes and fetch attempts. -/

/-- Status outcome of one `fetch` inside the retry loop. -/
inductive ReqOut (J : Type) where
  | ok (payload : J)
  | notFound
  | rateLimited (retryAfter : Nat)
  | serverErr (code : Nat)
  | clientErr (code : Nat)
  | netErr (msg : String)
deriving DecidableEq

/-- Observable events of one `makeRequest` run: the `lastRequestTime` write
inside `rateLimit`, each `fetch`, the 429 sleep, and the backoff sleep. -/
inductive ExecEvent where
  | stampAdvance
  | fetchAttempt (i : Nat)
  | rateSleep (seconds : Nat)
  | backoffSleep (ms : Nat)
deriving DecidableEq

def isStamp : ExecEvent → Bool
  | .stampAdvance => true
  | _ => false

def isFetch : ExecEvent → Bool
  | .fetchAttempt _ => true
  | _ => false

/-- Embedding of `this.retryBackoff[attempt] || 4000` (line 299). -/
def retryBackoffDelay (backoff : List Nat) (attempt : Nat) : Nat :=
  (backoff.get? attempt).getD 4000

/-- Retry loop of `makeRequest`: 404 returns the `null` sentinel at once; 429
sleeps for the server delay and takes the next loop iteration; a 5xx, another
non-2xx or a network error is thrown into the catch block, which returns
`null` on the last attempt and otherwise sleeps the backoff and retries. -/
def makeRequestGo {J : Type} (oracle : Nat → ReqOut J) (backoff : List Nat) :
    Nat → Nat → Option J × List ExecEvent
  | attempt, fuel =>
    match oracle attempt with
    | .ok j => (some j, [ExecEvent.fetchAttempt attempt])
    | .notFound => (none, [ExecEvent.fetchAttempt attempt])
    | .rateLimited ra =>
      match fuel with
      | 0 => (none, [ExecEvent.fetchAttempt attempt, ExecEvent.rateSleep ra])
      | fuel + 1 =>
        let r := makeRequestGo oracle backoff (attempt + 1) fuel
        (r.1, ExecEvent.fetchAttempt attempt :: ExecEvent.rateSleep ra :: r.2)
    | .serverErr _ =>
      match fuel with
      | 0 => (none, [ExecEvent.fetchAttempt attempt])
      | fuel + 1 =>
        let r := makeRequestGo oracle backoff (attempt + 1) fuel
        (r.1, ExecEvent.fetchAttempt attempt
          :: ExecEvent.backoffSleep (retryBackoffDelay backoff attempt) :: r.2)
    | .clientErr _ =>
      match fuel with
      | 0 => (none, [ExecEvent.fetchAttempt attempt])
      | fuel + 1 =>
        let r := makeRequestGo oracle backoff (attempt + 1) fuel
        (r.1, ExecEvent.fetchAttempt attempt
          :: ExecEvent.backoffSleep (retryBackoffDelay backoff attempt) :: r.2)
    | .netErr _ =>
      match fuel with
      | 0 => (none, [ExecEvent.fetchAttempt attempt])
      | fuel + 1 =>
        let r := makeRequestGo oracle backoff (attempt + 1) fuel
        (r.1, ExecEvent.fetchAttempt attempt
          :: ExecEvent.backoffSleep (retryBackoffDelay backoff attempt) :: r.2)

/-- Embedding of `makeRequest`: one rate-limit timestamp write, then the retry
loop from attempt 0. -/
def makeRequest {J : Type} (oracle : Nat → ReqOut J) (backoff : List Nat)
    (maxRetries : Nat) : Option J × List ExecEvent :=
  let r := makeRequestGo oracle backoff 0 maxRetries
  (r.1, ExecEvent.stampAdvance :: r.2)

/-- Failure statuses that are thrown into the catch block and retried. -/
def RetryableFail {J : Type} : ReqOut J → Prop
  | .serverErr _ => True
  | .clientErr _ => True
  | .netErr _ => True
  | _ => False

theorem makeRequestGo_exhausted {J : Type} (oracle : Nat → ReqOut J)
    (backoff : List Nat) :
    ∀ fuel attempt, (∀ i, attempt ≤ i → i ≤ attempt + fuel → RetryableFail (oracle i)) →
      (makeRequestGo oracle backoff attempt fuel).1 = none := by
  intro fuel
  induction fuel with
  | zero =>
    intro attempt h
    have h0 := h attempt (Nat.le_refl _) (Nat.le_refl _)
    cases ho : oracle attempt with
    | ok j => rw [ho] at h0; exact absurd h0 (by simp [RetryableFail])
    | notFound => simp [makeRequestGo, ho]
    | rateLimited ra => simp [makeRequestGo, ho]
    | serverErr c => simp [makeRequestGo, ho]
    | clientErr c => simp [makeRequestGo, ho]
    | netErr m => simp [makeRequestGo, ho]
  | succ fuel ih =>
    intro attempt h
    have h0 := h attempt (Nat.le_refl _) (by omega)
    have hrec := ih (attempt + 1) (fun i h1 h2 => h i (by omega) (by omega))
    cases ho : oracle attempt with
    | ok j => rw [ho] at h0; exact absurd h0 (by simp [RetryableFail])
    | notFound => rw [ho] at h0; exact absurd h0 (by simp [RetryableFail])
    | rateLimited ra => rw [ho] at h0; exact absurd h0 (by simp [RetryableFail])
    | serverErr c => simp [makeRequestGo, ho]; exact hrec
    | clientErr c => simp [makeRequestGo, ho]; exact hrec
    | netErr m => simp [makeRequestGo, ho]; exact hrec

/-- C6: a 404 response on the first fetch makes the executor return the
`null` sentinel at once — one fetch, no retry, no sleep, no error raised —
and when every attempt up to the retry budget fails with a retryable status
(5xx, another non-2xx, or a network error) the executor still returns the
`null` sentinel to its caller instead of propagating the exception. -/
theorem executor_sentinels {J : Type} (oracle : Nat → ReqOut J)
    (backoff : List Nat) (maxRetries : Nat) :
    (oracle 0 = ReqOut.notFound →
      makeRequest oracle backoff maxRetries
        = (none, [ExecEvent.stampAdvance, ExecEvent.fetchAttempt 0]))
    ∧ ((∀ i, i ≤ maxRetries → RetryableFail (oracle i)) →
      (makeRequest oracle backoff maxRetries).1 = none) := by
  constructor
  · intro h404
    rw [makeRequest]
    cases hf : maxRetries with
    | zero => simp [makeRequestGo, h404]
    | succ m => simp [makeRequestGo, h404]
  · intro hall
    rw [makeRequest]
    exact makeRequestGo_exhausted oracle backoff maxRetries 0
      (fun i h1 h2 => hall i (by omega))

/-- Witness for C6: both branches on concrete oracles with three retries. -/
theorem executor_sentinels_witness :
    makeRequest (fun _ => (ReqOut.notFound : ReqOut Nat)) [1000, 2000, 4000] 3
      = (none, [ExecEvent.stampAdvance, ExecEvent.fetchAttempt 0])
    ∧ (makeRequest (fun _ => (ReqOut.serverErr 503 : ReqOut Nat)) [1000, 2000, 4000] 3).1
      = none :=
  ⟨(executor_sentinels (fun _ => (ReqOut.notFound : ReqOut Nat)) [1000, 2000, 4000] 3).1 rfl,
   (executor_sentinels (fun _ => (ReqOut.serverErr 503 : ReqOut Nat)) [1000, 2000, 4000] 3).2
     (fun i _ => by simp [RetryableFail])⟩

/-- C8 counterexample: a request whose first fetch fails on the network and
whose second succeeds performs two fetch attempts but only one write of the
shared last-request timestamp — `rateLimit()` runs once per `makeRequest`
call, before the loop, not on every attempt. -/
theorem rateLimit_stamp_counterexample :
    ((makeRequest (fun n => if n = 0 then ReqOut.netErr "boom" else ReqOut.ok 7)
        [1000, 2000, 4000] 3).2.filter isStamp).length = 1
    ∧ ((makeRequest (fun n => if n = 0 then ReqOut.netErr "boom" else ReqOut.ok 7)
        [1000, 2000, 4000] 3).2.filter isFetch).length = 2
    ∧ (1 : Nat) ≠ 2 := by
  exact ⟨by decide, by decide, by decide⟩

theorem makeRequestGo_no_stamp {J : Type} (oracle : Nat → ReqOut J)
    (backoff : List Nat) :
    ∀ fuel attempt, ∀ ev ∈ (makeRequestGo oracle backoff attempt fuel).2,
      isStamp ev = false := by
  intro fuel
  induction fuel with
  | zero =>
    intro attempt ev hev
    cases ho : oracle attempt with
    | ok j => rw [makeRequestGo, ho] at hev; simp at hev; simp [hev, isStamp]
    | notFound => rw [makeRequestGo, ho] at hev; simp at hev; simp [hev, isStamp]
    | rateLimited ra =>
      rw [makeRequestGo, ho] at hev
      simp at hev
      rcases hev with h | h <;> simp [h, isStamp]
    | serverErr c => rw [makeRequestGo, ho] at hev; simp at hev; simp [hev, isStamp]
    | clientErr c => rw [makeRequestGo, ho] at hev; simp at hev; simp [hev, isStamp]
    | netErr m => rw [makeRequestGo, ho] at hev; simp at hev; simp [hev, isStamp]
  | succ fuel ih =>
    intro attempt ev hev
    cases ho : oracle attempt with
    | ok j => rw [makeRequestGo, ho] at hev; simp at hev; simp [hev, isStamp]
    | notFound => rw [makeRequestGo, ho] at hev; simp at hev; simp [hev, isStamp]
    | rateLimited ra =>
      rw [makeRequestGo, ho] at hev
      simp at hev
      rcases hev with h | h | h
      · simp [h, isStamp]
      · simp [h, isStamp]
      · exact ih (attempt + 1) ev h
    | serverErr c =>
      rw [makeRequestGo, ho] at hev
      simp at hev
      rcases hev with h | h | h
      · simp [h, isStamp]
      · simp [h, isStamp]
      · exact ih (attempt + 1) ev h
    | clientErr c =>
      rw [makeRequestGo, ho] at hev
      simp at hev
      rcases hev with h | h | h
      · simp [h, isStamp]
      · simp [h, isStamp]
      · exact ih (attempt + 1) ev h
    | netErr m =>
      rw [makeRequestGo, ho] at hev
      simp at hev
      rcases hev with h | h | h
      · simp [h, isStamp]
      · simp [h, isStamp]
      · exact ih (attempt + 1) ev h

/-- C8 amended: the executor advances the shared last-request timestamp
exactly once per request execution, before the first fetch attempt; the retry
attempts and their backoff sleeps perform no further timestamp write (so the
base inter-request gap is enforced once per request, not per attempt). -/
theorem rateLimit_stamp_amended {J : Type} (oracle : Nat → ReqOut J)
    (backoff : List Nat) (maxRetries : Nat) :
    ((makeRequest oracle backoff maxRetries).2.filter isStamp).length = 1
    ∧ (makeRequest oracle backoff maxRetries).2.head? = some ExecEvent.stampAdvance := by
  constructor
  · rw [makeRequest]
    have hnone : ((makeRequestGo oracle backoff 0 maxRetries).2.filter isStamp) = [] := by
      rw [List.filter_eq_nil_iff]
      intro ev hev
      simp [makeRequestGo_no_stamp oracle backoff maxRetries 0 ev hev]
    simp [List.filter_cons, isStamp, hnone]
  · rw [makeRequest]
    rfl

/-! ## Phase 3 collector: `ImageCollector.fetchImagesForLot` / `processLot`
(lib/logger.js part, lines 219-307)

`fetchImagesForLot` retries inside a `for (attempt = 0; attempt <=
MAX_RETRIES)` loop; a 404 is answered immediately with the zero-item success
payload `{result: 'success', data: []}`, while the error thrown on the last
attempt propagates out.  `processLot` skips lots already processed or whose
images file exists, writes the fetched payload (with lot and auction ids
embedded) on success, and on a fetch error only logs and counts it.  The loop
guard is carried as the structural fuel `maxRetries - attempt`; the image
items are abstract strings, and the written file is returned instead of being
put on disk. -/

/-- Status outcome of one `fetch` of the images endpoint. -/
inductive ImgFetchOut where
  | ok (result : String) (data : List String)
  | notFound
  | httpErr (code : Nat)
  | netErr (msg : String)
deriving DecidableEq

/-- Parsed images payload: the `result` field and the `data` array. -/
structure ImagesPayload where
  result : String
  data : List String
deriving DecidableEq

/-- Retry loop of `fetchImagesForLot` (lines 222-246). -/
def fetchImagesGo (oracle : Nat → ImgFetchOut) : Nat → Nat → Except String ImagesPayload
  | attempt, fuel =>
    match oracle attempt with
    | .ok result data => Except.ok ⟨result, data⟩
    | .notFound => Except.ok ⟨"success", []⟩
    | .httpErr code =>
      match fuel with
      | 0 => Except.error ("HTTP " ++ toString code)
      | fuel + 1 => fetchImagesGo oracle (attempt + 1) fuel
    | .netErr msg =>
      match fuel with
      | 0 => Except.error msg
      | fuel + 1 => fetchImagesGo oracle (attempt + 1) fuel

/-- Embedding of `fetchImagesForLot(auctionId, lotId)`: a thrown final error
is the `Except.error` case. -/
def fetchImagesForLot (oracle : Nat → ImgFetchOut) (maxRetries : Nat) :
    Except String ImagesPayload :=
  fetchImagesGo oracle 0 maxRetries

/-- The collector statistics object (fields touched by `processLot`). -/
structure LotStats where
  processedLots : Nat
  skippedLots : Nat
  totalImages : Nat
  errors : Nat
deriving DecidableEq

/-- Content of a written `lot_{id}_images.json` file: the payload spread plus
the embedded parent identifiers (the `collectedAt` timestamp is not
modelled). -/
structure ImagesFile where
  result : String
  data : List String
  lotId : Nat
  auctionId : Nat
deriving DecidableEq

/-- Observable outcome of one `processLot` call: updated statistics, updated
processed-lot set, the file written (if any), and the returned image count. -/
structure LotOutcome where
  stats : LotStats
  processed : Finset Nat
  written : Option ImagesFile
  returned : Nat
deriving DecidableEq

/-- Embedding of `processLot(lotFile)` (lines 251-307): skip when the lot id
is already processed; skip and mark processed when the images file already
exists; otherwise fetch — on success write the payload with the parent ids,
count the lot processed and add its images; the catch block only counts and
logs the error (no file is written, the lot is not marked processed). -/
def processLot (lotId auctionId : Nat) (alreadyProcessed : Finset Nat)
    (imagesFileExists : Bool) (oracle : Nat → ImgFetchOut) (maxRetries : Nat)
    (st : LotStats) : LotOutcome :=
  if lotId ∈ alreadyProcessed then
    ⟨{ st with skippedLots := st.skippedLots + 1 }, alreadyProcessed, none, 0⟩
  else if imagesFileExists then
    ⟨{ st with skippedLots := st.skippedLots + 1 }, insert lotId alreadyProcessed, none, 0⟩
  else
    match fetchImagesForLot oracle maxRetries with
    | Except.error _ =>
        ⟨{ st with errors := st.errors + 1 }, alreadyProcessed, none, 0⟩
    | Except.ok p =>
        let st1 := { st with processedLots := st.processedLots + 1 }
        if p.data.length > 0 then
          ⟨{ st1 with totalImages := st1.totalImages + p.data.length },
            insert lotId alreadyProcessed, some ⟨p.result, p.data, lotId, auctionId⟩,
            p.data.length⟩
        else
          ⟨st1, insert lotId alreadyProcessed, some ⟨p.result, p.data, lotId, auctionId⟩, 0⟩

/-- Failure statuses of the images fetch that are retried and finally thrown. -/
def ImgFail : ImgFetchOut → Prop
  | .httpErr _ => True
  | .netErr _ => True
  | _ => False

theorem fetchImagesGo_exhausted (oracle : Nat → ImgFetchOut) :
    ∀ fuel attempt, (∀ i, attempt ≤ i → i ≤ attempt + fuel → ImgFail (oracle i)) →
      ∃ e, fetchImagesGo oracle attempt fuel = Except.error e := by
  intro fuel
  induction fuel with
  | zero =>
    intro attempt h
    have h0 := h attempt (Nat.le_refl _) (Nat.le_refl _)
    cases ho : oracle attempt with
    | ok r d => rw [ho] at h0; exact absurd h0 (by simp [ImgFail])
    | notFound => rw [ho] at h0; exact absurd h0 (by simp [ImgFail])
    | httpErr c => exact ⟨"HTTP " ++ toString c, by rw [fetchImagesGo, ho]⟩
    | netErr m => exact ⟨m, by rw [fetchImagesGo, ho]⟩
  | succ fuel ih =>
    intro attempt h
    have h0 := h attempt (Nat.le_refl _) (by omega)
    have hrec := ih (attempt + 1) (fun i h1 h2 => h i (by omega) (by omega))
    cases ho : oracle attempt with
    | ok r d => rw [ho] at h0; exact absurd h0 (by simp [ImgFail])
    | notFound => rw [ho] at h0; exact absurd h0 (by simp [ImgFail])
    | httpErr c =>
      rcases hrec with ⟨e, he⟩
      exact ⟨e, by rw [fetchImagesGo, ho]; exact he⟩
    | netErr m =>
      rcases hrec with ⟨e, he⟩
      exact ⟨e, by rw [fetchImagesGo, ho]; exact he⟩

/-- C7 counterexample: a lot whose images fetch fails on the network on every
of the four attempts ends with no images file written at all (and the error
counted), not with a zero-item file — the failed lot will be refetched by a
re-run rather than skipped. -/
theorem lot404_file_counterexample :
    (processLot 5 7 ∅ false (fun _ => ImgFetchOut.netErr "socket hang up") 3
        ⟨0, 0, 0, 0⟩).written = none
    ∧ (processLot 5 7 ∅ false (fun _ => ImgFetchOut.netErr "socket hang up") 3
        ⟨0, 0, 0, 0⟩).stats.errors = 1 := by
  exact ⟨by decide, by decide⟩

/-- C7 amended: a child record whose sub-resource fetch answers HTTP 404 does
get a zero-item file written, with the lot and auction identifiers embedded,
and is marked processed so a re-run skips it; but a fetch that fails after all
retries writes no file — the error is only counted and the lot stays
unprocessed, eligible for refetch. -/
theorem lot404_file_amended (lotId auctionId : Nat) (procd : Finset Nat)
    (oracle : Nat → ImgFetchOut) (maxRetries : Nat) (st : LotStats)
    (hnew : lotId ∉ procd) :
    (oracle 0 = ImgFetchOut.notFound →
      processLot lotId auctionId procd false oracle maxRetries st
        = ⟨{ st with processedLots := st.processedLots + 1 },
            insert lotId procd, some ⟨"success", [], lotId, auctionId⟩, 0⟩)
    ∧ ((∀ i, i ≤ maxRetries → ImgFail (oracle i)) →
      processLot lotId auctionId procd false oracle maxRetries st
        = ⟨{ st with errors := st.errors + 1 }, procd, none, 0⟩) := by
  constructor
  · intro h404
    have hfetch : fetchImagesForLot oracle maxRetries = Except.ok ⟨"success", []⟩ := by
      rw [fetchImagesForLot]
      cases maxRetries with
      | zero => rw [fetchImagesGo, h404]
      | succ m => rw [fetchImagesGo, h404]
    rw [processLot, if_neg hnew]
    simp [hfetch]
  · intro hall
    rcases fetchImagesGo_exhausted oracle maxRetries 0
        (fun i h1 h2 => hall i (by omega)) with ⟨e, he⟩
    have hfetch : fetchImagesForLot oracle maxRetries = Except.error e := he
    rw [processLot, if_neg hnew]
    simp [hfetch]

/-- Witness for C7 amended: a concrete 404 lot gets its zero-item file, a
concrete always-failing lot gets none. -/
theorem lot404_file_amended_witness :
    processLot 11 4 ∅ false (fun _ => ImgFetchOut.notFound) 3 ⟨0, 0, 0, 0⟩
      = ⟨⟨1, 0, 0, 0⟩, insert 11 ∅, some ⟨"success", [], 11, 4⟩, 0⟩
    ∧ processLot 12 4 ∅ false (fun _ => ImgFetchOut.netErr "reset") 3 ⟨0, 0, 0, 0⟩
      = ⟨⟨0, 0, 0, 1⟩, ∅, none, 0⟩ :=
  ⟨(lot404_file_amended 11 4 ∅ (fun _ => ImgFetchOut.notFound) 3 ⟨0, 0, 0, 0⟩
      (by decide)).1 rfl,
   (lot404_file_amended 12 4 ∅ (fun _ => ImgFetchOut.netErr "reset") 3 ⟨0, 0, 0, 0⟩
      (by decide)).2 (fun i _ => by simp [ImgFail])⟩
